import Mathlib

/-!
Verification development for `s32tar` (`src/s32tar/archive.py`).

The Python module `S3TarArchiver` streams S3 objects under a key prefix into
one or more TAR archives.  We embed it shallowly:

* Python strings are `List Char` (a Python `str` is a sequence of code
  points; `key.endswith("/")`, `key.startswith(prefix)`, `key[len(prefix):]`,
  `.lstrip("/")` become the corresponding list operations).
* The S3 client is an environment: `pages` is the page sequence returned by
  `get_paginator("list_objects_v2").paginate(Bucket, Prefix)` (a page without
  a `"Contents"` key is `none`), and `env : Str → GetResult` says, per key,
  whether `get_object` succeeds, raises, or yields a body whose read fails
  inside `tar.addfile`.
* Every observable side effect (network call, opening/closing an output
  file, opening/closing a tar writer, acquiring/releasing a body handle,
  writing an archive entry) is recorded as an `Event` in a trace, in the
  order the Python code performs it.  A raised exception is an `Err` result.
-/

namespace S32Tar

/-- Python strings as sequences of characters. -/
abbrev Str := List Char

/-- One listed object: the dict `{"Key": ..., "Size": ...}` built by
`list_objects`. Sizes reported by S3 are non-negative integers. -/
structure ObjRec where
  key : Str
  size : Nat
deriving DecidableEq, Repr

/-- Behaviour of `s3_client.get_object` / the returned body for a key:
the call succeeds and the body streams fully (`ok`), the `get_object` call
itself raises (`failGet`), or reading the body inside `tar.addfile` raises
(`failRead`). -/
inductive GetResult
  | ok
  | failGet
  | failRead
deriving DecidableEq, Repr

/-- Observable side effects of a run, in program order. -/
inductive Event
  | listCall                  -- paginated list_objects_v2 network traffic
  | getObjectCallFailed (key : Str)  -- get_object network call that raised
  | getObject (key : Str)     -- get_object network call, body handle acquired
  | closeBody (key : Str)     -- body.close()
  | addEntry (name : Str)     -- tar.addfile wrote the entry for this name
  | openTar                   -- tarfile.open
  | closeTar                  -- tar.close() / with-exit (writes the trailer)
  | openFile (name : Str)     -- open(name, "wb") — creates/truncates the file
  | closeFile (name : Str)    -- file.close() / with-exit
deriving DecidableEq, Repr

/-- Exceptions escaping a call: the compression `ValueError`, or an S3
streaming error propagated from `get_object` / the body read. -/
inductive Err
  | configError
  | streamError
deriving DecidableEq, Repr

/-- Python `key.endswith("/")`. -/
def endsWithSep (k : Str) : Bool :=
  k.getLast? = some '/'

/-- Python `s.lstrip("/")`: drop all leading `'/'` characters. -/
def lstripSlash (s : Str) : Str :=
  s.dropWhile fun c => c = '/'

/-- The archive entry name computed for a key (lines 84–88 / 183–187):
`key[len(prefix):].lstrip("/")` when `strip_prefix and key.startswith(prefix)`,
otherwise the key itself. -/
def archiveName (strip : Bool) (pre key : Str) : Str :=
  if strip && pre.isPrefixOf key then lstripSlash (key.drop pre.length)
  else key

/-- `S3TarArchiver.list_objects`: walk every page the paginator yields, skip
pages without `"Contents"`, and within a page append every object whose key
does not end in `"/"`, preserving order (lines 36–46). -/
def list_objects (pages : List (Option (List ObjRec))) : List ObjRec :=
  pages.foldl
    (fun objects page =>
      match page with
      | none => objects
      | some contents =>
          contents.foldl
            (fun objects o =>
              if endsWithSep o.key then objects else objects ++ [o])
            objects)
    []

/-- Compression validation (lines 67–74 / 160–167): `None` or one of
`"gz"`, `"bz2"`, `"xz"`. -/
def validComp (comp : Option Str) : Bool :=
  match comp with
  | none => true
  | some s => s = ['g', 'z'] || s = ['b', 'z', '2'] || s = ['x', 'z']

/-- Loop body of `stream_to_tar` (lines 80–107), recursing over the listed
objects with the running `file_count`.  Per object: compute the archive
name, skip it when empty, otherwise call `get_object`, write the entry, and
close the body in a `finally`; an S3 failure escapes after the `finally`. -/
def stream_loop (env : Str → GetResult) (strip : Bool) (pre : Str) :
    List ObjRec → Nat → List Event × Except Err Nat
  | [], n => ([], .ok n)
  | o :: rest, n =>
    let name := archiveName strip pre o.key
    if name = [] then stream_loop env strip pre rest n
    else
      match env o.key with
      | .failGet => ([.getObjectCallFailed o.key], .error .streamError)
      | .failRead => ([.getObject o.key, .closeBody o.key], .error .streamError)
      | .ok =>
        let r := stream_loop env strip pre rest (n + 1)
        (.getObject o.key :: .addEntry name :: .closeBody o.key :: r.1, r.2)

/-- `S3TarArchiver.stream_to_tar` (lines 48–109): validate the compression
mode first (raising `ValueError` before any I/O), then list the objects over
the network, then open the tar writer on the caller-supplied output and run
the loop; the `with` statement closes the tar writer on every exit path. -/
def stream_to_tar (env : Str → GetResult) (pages : List (Option (List ObjRec)))
    (pre : Str) (strip : Bool) (comp : Option Str) :
    List Event × Except Err Nat :=
  if validComp comp then
    let r := stream_loop env strip pre (list_objects pages) 0
    (.listCall :: .openTar :: (r.1 ++ [.closeTar]), r.2)
  else ([], .error .configError)

/-- `S3TarArchiver.archive_to_file` (lines 111–135): open (create/truncate)
`output_path` for writing, delegate to `stream_to_tar`, and close the file on
every exit path (the `with` statement). -/
def archive_to_file (env : Str → GetResult) (pages : List (Option (List ObjRec)))
    (pre outPath : Str) (strip : Bool) (comp : Option Str) :
    List Event × Except Err Nat :=
  let r := stream_to_tar env pages pre strip comp
  (.openFile outPath :: (r.1 ++ [.closeFile outPath]), r.2)

/-- One finalized chunk, instrumented: the pair appended to `chunks`
(`current_filename`, `files_in_chunk`) together with the ghost field
`bytes`, the value of `current_size` when the chunk was closed. -/
structure ChunkRec where
  filename : Str
  fileCount : Nat
  bytes : Nat
deriving DecidableEq, Repr

/-- Mutable state of `archive_to_files_chunked` (lines 170–176): the chunks
recorded so far, `chunk_num`, `current_size`, whether `tar` (and its
`output_file`) is non-`None`, `files_in_chunk`, and `current_filename`. -/
structure ChunkSt where
  chunks : List ChunkRec
  chunk_num : Nat
  current_size : Nat
  tarOpen : Bool
  files_in_chunk : Nat
  current_filename : Str
deriving DecidableEq, Repr

/-- Initial state: `chunks = []`, `chunk_num = 0`, `current_size = 0`,
`tar = None`, `files_in_chunk = 0`. -/
def initSt : ChunkSt := ⟨[], 0, 0, false, 0, []⟩

/-- The new-chunk condition of lines 195–197:
`tar is None or (current_size + size > self.max_size_bytes and files_in_chunk > 0)`. -/
def needNewChunk (maxBytes : Nat) (st : ChunkSt) (size : Nat) : Bool :=
  !st.tarOpen || (decide (maxBytes < st.current_size + size) && decide (0 < st.files_in_chunk))

/-- Closing the open chunk, if any (lines 199–202 and 234–237):
`tar.close(); output_file.close(); chunks.append((current_filename, files_in_chunk))`.
Returns the emitted events and the updated `chunks` list. -/
def finalizeChunk (st : ChunkSt) : List Event × List ChunkRec :=
  if st.tarOpen then
    ([.closeTar, .closeFile st.current_filename],
     st.chunks ++ [⟨st.current_filename, st.files_in_chunk, st.current_size⟩])
  else ([], st.chunks)

/-- Starting a new chunk (lines 198–214): close the current one if open,
increment `chunk_num`, render the filename from the pattern, open the output
file and the tar writer, and reset `current_size` and `files_in_chunk`. -/
def rotate (pattern : Nat → Str) (st : ChunkSt) : List Event × ChunkSt :=
  let f := finalizeChunk st
  let fn := pattern (st.chunk_num + 1)
  (f.1 ++ [.openFile fn, .openTar],
   ⟨f.2, st.chunk_num + 1, 0, true, 0, fn⟩)

/-- One iteration of the loop of `archive_to_files_chunked` (lines 179–230):
skip empty archive names; otherwise rotate when `needNewChunk` holds, then
call `get_object` and stream the body into the tar, closing the body in a
`finally`; an S3 failure is reported as `some err` after the body close. -/
def chunkedStep (env : Str → GetResult) (maxBytes : Nat) (pattern : Nat → Str)
    (strip : Bool) (pre : Str) (o : ObjRec) (st : ChunkSt) :
    List Event × ChunkSt × Option Err :=
  let name := archiveName strip pre o.key
  if name = [] then ([], st, none)
  else
    let r := if needNewChunk maxBytes st o.size then rotate pattern st else ([], st)
    match env o.key with
    | .failGet => (r.1 ++ [.getObjectCallFailed o.key], r.2, some .streamError)
    | .failRead => (r.1 ++ [.getObject o.key, .closeBody o.key], r.2, some .streamError)
    | .ok =>
      (r.1 ++ [.getObject o.key, .addEntry name, .closeBody o.key],
       { r.2 with
          current_size := r.2.current_size + o.size,
          files_in_chunk := r.2.files_in_chunk + 1 },
       none)

/-- The `for obj in objects` loop of `archive_to_files_chunked`: run
`chunkedStep` per object, stopping at the first error. -/
def chunkedLoop (env : Str → GetResult) (maxBytes : Nat) (pattern : Nat → Str)
    (strip : Bool) (pre : Str) :
    List ObjRec → ChunkSt → List Event × ChunkSt × Option Err
  | [], st => ([], st, none)
  | o :: rest, st =>
    let r := chunkedStep env maxBytes pattern strip pre o st
    match r.2.2 with
    | some e => (r.1, r.2.1, some e)
    | none =>
      let r2 := chunkedLoop env maxBytes pattern strip pre rest r.2.1
      (r.1 ++ r2.1, r2.2)

/-- `S3TarArchiver.archive_to_files_chunked` (lines 137–239): validate the
compression mode before any I/O, list the objects, run the loop, and in
`finally` close the still-open tar and file (appending the last chunk).
On success the returned list is the `(filename, file_count)` pairs; on an
S3 error the exception propagates after the `finally` cleanup. -/
def archive_to_files_chunked (env : Str → GetResult)
    (pages : List (Option (List ObjRec))) (pre : Str) (pattern : Nat → Str)
    (strip : Bool) (comp : Option Str) (maxBytes : Nat) :
    List Event × Except Err (List (Str × Nat)) :=
  if validComp comp then
    let r := chunkedLoop env maxBytes pattern strip pre (list_objects pages) initSt
    let f := finalizeChunk r.2.1
    (.listCall :: (r.1 ++ f.1),
     match r.2.2 with
     | none => .ok (f.2.map fun c => (c.filename, c.fileCount))
     | some e => .error e)
  else ([], .error .configError)

/-- Instrumented view of a chunked run: the finalized chunks with their
ghost byte counts (meaningful for runs that do not raise). -/
def chunkRecords (env : Str → GetResult) (pages : List (Option (List ObjRec)))
    (pre : Str) (pattern : Nat → Str) (strip : Bool) (maxBytes : Nat) :
    List ChunkRec :=
  (finalizeChunk (chunkedLoop env maxBytes pattern strip pre (list_objects pages) initSt).2.1).2

/-- The archive names of a listing after the empty-name skip, in order. -/
def filteredNames (strip : Bool) (pre : Str) (objects : List ObjRec) : List Str :=
  objects.filterMap fun o =>
    let name := archiveName strip pre o.key
    if name = [] then none else some name

/-- The entry names written across a trace, in order. -/
def entryNames (evs : List Event) : List Str :=
  evs.filterMap fun e =>
    match e with
    | .addEntry n => some n
    | _ => none

/-- Event classifiers for the trace claims. -/
def isGetObject : Event → Bool
  | .getObject _ => true
  | _ => false

def isCloseBody : Event → Bool
  | .closeBody _ => true
  | _ => false

def isOpenTar : Event → Bool
  | .openTar => true
  | _ => false

def isCloseTar : Event → Bool
  | .closeTar => true
  | _ => false

def isOpenFile : Event → Bool
  | .openFile _ => true
  | _ => false

def isCloseFile : Event → Bool
  | .closeFile _ => true
  | _ => false

/-- Network traffic to the store: listing pages, and `get_object` calls
whether or not they succeed. -/
def isNetwork : Event → Bool
  | .listCall => true
  | .getObject _ => true
  | .getObjectCallFailed _ => true
  | _ => false

/-- Number of chunks reported by a chunked-run result (`0` for a raised
exception, which reports no chunks at all). -/
def resultChunkCount : Except Err (List (Str × Nat)) → Nat
  | .ok l => l.length
  | .error _ => 0

/-- An S3 environment in which every `get_object` succeeds. -/
def envAllOk : Str → GetResult := fun _ => .ok

/-- A constant output pattern for concrete runs. -/
def patF : Nat → Str := fun _ => ['f']

/-- A one-page listing with a single 1-byte object `"ax"`. -/
def pagesOne : List (Option (List ObjRec)) := [some [⟨['a', 'x'], 1⟩]]

/-- A one-page listing with two 30-byte objects and keys `"a"`, `"b"`. -/
def pages3030 : List (Option (List ObjRec)) := [some [⟨['a'], 30⟩, ⟨['b'], 30⟩]]

/-- A one-page listing with two 1-byte objects and keys `"a"`, `"b"`. -/
def pages11 : List (Option (List ObjRec)) := [some [⟨['a'], 1⟩, ⟨['b'], 1⟩]]

/-- A one-page listing holding only the directory marker `"a/"`. -/
def pagesMarker : List (Option (List ObjRec)) := [some [⟨['a', '/'], 5⟩]]

/-- An unrecognized compression mode. -/
def compBad : Option Str := some ['b', 'a', 'd']

/-! ### Helper lemmas -/

lemma inner_fold_eq (contents acc : List ObjRec) :
    contents.foldl
      (fun objects o => if endsWithSep o.key then objects else objects ++ [o]) acc
      = acc ++ contents.filter (fun o => !endsWithSep o.key) := by
  induction contents generalizing acc with
  | nil => simp
  | cons o rest ih =>
    by_cases h : endsWithSep o.key
    · simp [List.foldl_cons, h, ih]
    · simp [List.foldl_cons, h, ih]

lemma list_objects_fold_eq (pages : List (Option (List ObjRec))) (acc : List ObjRec) :
    pages.foldl
      (fun objects page =>
        match page with
        | none => objects
        | some contents =>
            contents.foldl
              (fun objects o =>
                if endsWithSep o.key then objects else objects ++ [o])
              objects)
      acc
      = acc ++ ((pages.map fun p => p.getD []).flatten).filter
          (fun o => !endsWithSep o.key) := by
  induction pages generalizing acc with
  | nil => simp
  | cons p rest ih =>
    cases p with
    | none => simpa using ih acc
    | some contents =>
      simp only [List.foldl_cons]
      rw [ih, inner_fold_eq]
      simp [List.filter_append, List.append_assoc]

/-! ### C9: the Lister follows pagination and filters directory markers -/

/-- C9: `list_objects` returns, in the order the store produced them across
all pages, exactly the objects whose key does not end in `'/'`; pages
without `"Contents"` contribute nothing, and every page is consumed. -/
theorem c9_list_objects_pagination_and_filter (pages : List (Option (List ObjRec))) :
    list_objects pages
      = ((pages.map fun p => p.getD []).flatten).filter
          (fun o => !endsWithSep o.key) := by
  simpa using list_objects_fold_eq pages []

/-! ### Entry-name bookkeeping -/

lemma filteredNames_nil (strip : Bool) (pre : Str) :
    filteredNames strip pre [] = [] := rfl

lemma filteredNames_cons_skip (strip : Bool) (pre : Str) (o : ObjRec)
    (rest : List ObjRec) (h : archiveName strip pre o.key = []) :
    filteredNames strip pre (o :: rest) = filteredNames strip pre rest := by
  simp [filteredNames, List.filterMap_cons, h]

lemma filteredNames_cons_keep (strip : Bool) (pre : Str) (o : ObjRec)
    (rest : List ObjRec) (h : ¬ archiveName strip pre o.key = []) :
    filteredNames strip pre (o :: rest)
      = archiveName strip pre o.key :: filteredNames strip pre rest := by
  simp [filteredNames, List.filterMap_cons, h]

lemma entryNames_append (a b : List Event) :
    entryNames (a ++ b) = entryNames a ++ entryNames b := by
  simp [entryNames, List.filterMap_append]

lemma entryNames_finalize (st : ChunkSt) :
    entryNames (finalizeChunk st).1 = [] := by
  by_cases h : st.tarOpen <;> simp [finalizeChunk, h, entryNames]

lemma entryNames_rotate (pattern : Nat → Str) (st : ChunkSt) :
    entryNames (rotate pattern st).1 = [] := by
  simp only [rotate]
  rw [entryNames_append, entryNames_finalize]
  rfl

lemma chunkedLoop_cons_none (env : Str → GetResult) (maxBytes : Nat)
    (pattern : Nat → Str) (strip : Bool) (pre : Str) (o : ObjRec)
    (rest : List ObjRec) (st st1 : ChunkSt) (evs : List Event)
    (hs : chunkedStep env maxBytes pattern strip pre o st = (evs, st1, none)) :
    chunkedLoop env maxBytes pattern strip pre (o :: rest) st
      = (evs ++ (chunkedLoop env maxBytes pattern strip pre rest st1).1,
         (chunkedLoop env maxBytes pattern strip pre rest st1).2) := by
  simp [chunkedLoop, hs]

lemma chunkedLoop_cons_some (env : Str → GetResult) (maxBytes : Nat)
    (pattern : Nat → Str) (strip : Bool) (pre : Str) (o : ObjRec)
    (rest : List ObjRec) (st st1 : ChunkSt) (evs : List Event) (e : Err)
    (hs : chunkedStep env maxBytes pattern strip pre o st = (evs, st1, some e)) :
    chunkedLoop env maxBytes pattern strip pre (o :: rest) st = (evs, st1, some e) := by
  simp [chunkedLoop, hs]

lemma chunkedStep_skip (env : Str → GetResult) (maxBytes : Nat)
    (pattern : Nat → Str) (strip : Bool) (pre : Str) (o : ObjRec) (st : ChunkSt)
    (hname : archiveName strip pre o.key = []) :
    chunkedStep env maxBytes pattern strip pre o st = ([], st, none) := by
  simp [chunkedStep, hname]

lemma chunkedStep_ok_shape (env : Str → GetResult) (maxBytes : Nat)
    (pattern : Nat → Str) (strip : Bool) (pre : Str) (o : ObjRec) (st : ChunkSt)
    (hname : ¬ archiveName strip pre o.key = []) (ho : env o.key = .ok) :
    chunkedStep env maxBytes pattern strip pre o st
      = ((if needNewChunk maxBytes st o.size then rotate pattern st else ([], st)).1
           ++ [.getObject o.key, .addEntry (archiveName strip pre o.key), .closeBody o.key],
         { (if needNewChunk maxBytes st o.size then rotate pattern st else ([], st)).2 with
            current_size :=
              (if needNewChunk maxBytes st o.size then rotate pattern st else ([], st)).2.current_size
                + o.size,
            files_in_chunk :=
              (if needNewChunk maxBytes st o.size then rotate pattern st else ([], st)).2.files_in_chunk
                + 1 },
         none) := by
  simp [chunkedStep, hname, ho]

lemma chunkedStep_failGet_shape (env : Str → GetResult) (maxBytes : Nat)
    (pattern : Nat → Str) (strip : Bool) (pre : Str) (o : ObjRec) (st : ChunkSt)
    (hname : ¬ archiveName strip pre o.key = []) (ho : env o.key = .failGet) :
    chunkedStep env maxBytes pattern strip pre o st
      = ((if needNewChunk maxBytes st o.size then rotate pattern st else ([], st)).1
           ++ [.getObjectCallFailed o.key],
         (if needNewChunk maxBytes st o.size then rotate pattern st else ([], st)).2,
         some .streamError) := by
  simp [chunkedStep, hname, ho]

lemma chunkedStep_failRead_shape (env : Str → GetResult) (maxBytes : Nat)
    (pattern : Nat → Str) (strip : Bool) (pre : Str) (o : ObjRec) (st : ChunkSt)
    (hname : ¬ archiveName strip pre o.key = []) (ho : env o.key = .failRead) :
    chunkedStep env maxBytes pattern strip pre o st
      = ((if needNewChunk maxBytes st o.size then rotate pattern st else ([], st)).1
           ++ [.getObject o.key, .closeBody o.key],
         (if needNewChunk maxBytes st o.size then rotate pattern st else ([], st)).2,
         some .streamError) := by
  simp [chunkedStep, hname, ho]

lemma stream_loop_names (env : Str → GetResult) (strip : Bool) (pre : Str) :
    ∀ (objs : List ObjRec) (n : Nat), (∀ o ∈ objs, env o.key = .ok) →
      entryNames (stream_loop env strip pre objs n).1 = filteredNames strip pre objs := by
  intro objs
  induction objs with
  | nil => intro n _; simp [stream_loop, entryNames, filteredNames]
  | cons o rest ih =>
    intro n h
    have ho : env o.key = .ok := h o (by simp)
    have hr : ∀ x ∈ rest, env x.key = .ok := fun x hx => h x (by simp [hx])
    by_cases hname : archiveName strip pre o.key = []
    · rw [filteredNames_cons_skip _ _ _ _ hname]
      simpa [stream_loop, hname] using ih n hr
    · rw [filteredNames_cons_keep _ _ _ _ hname]
      simp only [stream_loop, hname, ho, if_neg hname]
      simpa [entryNames] using ih (n + 1) hr

lemma chunkedLoop_ok (env : Str → GetResult) (maxBytes : Nat) (pattern : Nat → Str)
    (strip : Bool) (pre : Str) :
    ∀ (objs : List ObjRec) (st : ChunkSt), (∀ o ∈ objs, env o.key = .ok) →
      (chunkedLoop env maxBytes pattern strip pre objs st).2.2 = none ∧
      entryNames (chunkedLoop env maxBytes pattern strip pre objs st).1
        = filteredNames strip pre objs := by
  intro objs
  induction objs with
  | nil => intro st _; simp [chunkedLoop, entryNames, filteredNames]
  | cons o rest ih =>
    intro st h
    have ho : env o.key = .ok := h o (by simp)
    have hr : ∀ x ∈ rest, env x.key = .ok := fun x hx => h x (by simp [hx])
    by_cases hname : archiveName strip pre o.key = []
    · rw [filteredNames_cons_skip _ _ _ _ hname,
        chunkedLoop_cons_none env maxBytes pattern strip pre o rest st st []
          (chunkedStep_skip env maxBytes pattern strip pre o st hname)]
      simpa using ih st hr
    · rw [filteredNames_cons_keep _ _ _ _ hname,
        chunkedLoop_cons_none env maxBytes pattern strip pre o rest st _ _
          (chunkedStep_ok_shape env maxBytes pattern strip pre o st hname ho)]
      obtain ⟨h1, h2⟩ := ih _ hr
      refine ⟨by simpa using h1, ?_⟩
      by_cases hn : needNewChunk maxBytes st o.size
      · simp only [hn, if_true] at h2 ⊢
        rw [entryNames_append, entryNames_append, entryNames_rotate]
        simpa [entryNames] using h2
      · simp only [hn, if_false] at h2 ⊢
        rw [entryNames_append, entryNames_append]
        simpa [entryNames] using h2

/-! ### C1: completeness and ordering of the written entries -/

/-- C1: on a run where every object streams successfully, the sequence of
entry names written across all produced archives — by `stream_to_tar`, and by
`archive_to_files_chunked` concatenated in chunk order (the trace lists the
chunks' entries in order) — equals, in order, the listed object sequence's
archive names after dropping those that compute to empty; nothing else is
duplicated or dropped. -/
theorem c1_entries_complete_in_order (env : Str → GetResult)
    (pages : List (Option (List ObjRec))) (pre : Str) (strip : Bool)
    (comp : Option Str) (pattern : Nat → Str) (maxBytes : Nat)
    (hc : validComp comp = true)
    (hok : ∀ o ∈ list_objects pages, env o.key = .ok) :
    entryNames (stream_to_tar env pages pre strip comp).1
        = filteredNames strip pre (list_objects pages) ∧
    entryNames (archive_to_files_chunked env pages pre pattern strip comp maxBytes).1
        = filteredNames strip pre (list_objects pages) := by
  constructor
  · simp only [stream_to_tar, hc, if_true]
    have h := stream_loop_names env strip pre (list_objects pages) 0 hok
    simpa [entryNames, List.filterMap_append] using h
  · simp only [archive_to_files_chunked, hc, if_true]
    obtain ⟨h1, h2⟩ := chunkedLoop_ok env maxBytes pattern strip pre (list_objects pages) initSt hok
    have h3 := entryNames_finalize
      (chunkedLoop env maxBytes pattern strip pre (list_objects pages) initSt).2.1
    simp only [entryNames, List.filterMap_cons, List.filterMap_append] at h2 h3 ⊢
    simp [h2, h3]

/-- Witness for C1 at a concrete input: one page, one object `"ax"` of size 1,
empty key path filter, no compression. -/
theorem c1_entries_complete_in_order_witness :
    validComp none = true ∧
    (∀ o ∈ list_objects pagesOne, envAllOk o.key = .ok) ∧
    (entryNames (stream_to_tar envAllOk pagesOne [] true none).1
        = filteredNames true [] (list_objects pagesOne) ∧
     entryNames (archive_to_files_chunked envAllOk pagesOne [] patF true none 25).1
        = filteredNames true [] (list_objects pagesOne)) :=
  ⟨by decide, by decide,
    c1_entries_complete_in_order envAllOk pagesOne [] true none patF 25
      (by decide) (by decide)⟩

/-! ### Degenerate listings: every archive name empty (or no objects) -/

lemma stream_loop_all_empty (env : Str → GetResult) (strip : Bool) (pre : Str) :
    ∀ (objs : List ObjRec) (n : Nat), (∀ o ∈ objs, archiveName strip pre o.key = []) →
      stream_loop env strip pre objs n = ([], .ok n) := by
  intro objs
  induction objs with
  | nil => intro n _; rfl
  | cons o rest ih =>
    intro n h
    have ho : archiveName strip pre o.key = [] := h o (by simp)
    have hr : ∀ x ∈ rest, archiveName strip pre x.key = [] := fun x hx => h x (by simp [hx])
    simpa [stream_loop, ho] using ih n hr

lemma chunkedLoop_all_empty (env : Str → GetResult) (maxBytes : Nat)
    (pattern : Nat → Str) (strip : Bool) (pre : Str) :
    ∀ (objs : List ObjRec) (st : ChunkSt),
      (∀ o ∈ objs, archiveName strip pre o.key = []) →
      chunkedLoop env maxBytes pattern strip pre objs st = ([], st, none) := by
  intro objs
  induction objs with
  | nil => intro st _; rfl
  | cons o rest ih =>
    intro st h
    have ho : archiveName strip pre o.key = [] := h o (by simp)
    have hr : ∀ x ∈ rest, archiveName strip pre x.key = [] := fun x hx => h x (by simp [hx])
    rw [chunkedLoop_cons_none env maxBytes pattern strip pre o rest st st []
      (chunkedStep_skip env maxBytes pattern strip pre o st ho)]
    simp [ih st hr]

/-! ### C6: empty (or all-degenerate) listing in chunked mode -/

/-- C6: when the listing matches no objects, or every listed object's archive
name computes to empty, `archive_to_files_chunked` succeeds with an empty
chunk list; its trace is only the listing traffic, so no output file is ever
created at any pattern-derived path. -/
theorem c6_chunked_empty_listing (env : Str → GetResult)
    (pages : List (Option (List ObjRec))) (pre : Str) (pattern : Nat → Str)
    (strip : Bool) (comp : Option Str) (maxBytes : Nat)
    (hc : validComp comp = true)
    (hempty : ∀ o ∈ list_objects pages, archiveName strip pre o.key = []) :
    archive_to_files_chunked env pages pre pattern strip comp maxBytes
        = ([.listCall], .ok []) ∧
    (archive_to_files_chunked env pages pre pattern strip comp maxBytes).1.countP
        isOpenFile = 0 := by
  have h := chunkedLoop_all_empty env maxBytes pattern strip pre (list_objects pages)
    initSt hempty
  constructor
  · simp only [archive_to_files_chunked, hc, if_true, h]
    simp [finalizeChunk, initSt]
  · simp only [archive_to_files_chunked, hc, if_true, h]
    simp [finalizeChunk, initSt, isOpenFile]

/-- Witness for C6: a listing holding only the directory marker `"a/"`, which
the Lister filters out entirely. -/
theorem c6_chunked_empty_listing_witness :
    validComp none = true ∧
    (∀ o ∈ list_objects pagesMarker, archiveName true ['a', '/'] o.key = []) ∧
    (archive_to_files_chunked envAllOk pagesMarker ['a', '/'] patF true none 25
        = ([.listCall], .ok []) ∧
     (archive_to_files_chunked envAllOk pagesMarker ['a', '/'] patF true none 25).1.countP
        isOpenFile = 0) :=
  ⟨by decide, by decide,
    c6_chunked_empty_listing envAllOk pagesMarker ['a', '/'] patF true none 25
      (by decide) (by decide)⟩

/-! ### C10: stream_to_tar still writes an (empty) archive for empty input -/

/-- C10: on an empty (or all-degenerate) listing, `stream_to_tar` still opens
the archive writer on the caller-supplied output and closes it (writing the
trailer) before returning 0; hence `archive_to_file` creates/truncates the
file at `output_path` — indeed its trace begins with that file creation for
every compression argument — leaving a valid empty archive, while the
chunked variant creates no file at all. -/
theorem c10_stream_empty_still_writes_archive (env : Str → GetResult)
    (pages : List (Option (List ObjRec))) (pre outPath : Str) (strip : Bool)
    (comp : Option Str) (pattern : Nat → Str) (maxBytes : Nat)
    (hc : validComp comp = true)
    (hempty : ∀ o ∈ list_objects pages, archiveName strip pre o.key = []) :
    stream_to_tar env pages pre strip comp = ([.listCall, .openTar, .closeTar], .ok 0) ∧
    archive_to_file env pages pre outPath strip comp
        = ([.openFile outPath, .listCall, .openTar, .closeTar, .closeFile outPath], .ok 0) ∧
    (∀ comp2 : Option Str,
      (archive_to_file env pages pre outPath strip comp2).1.head?
        = some (.openFile outPath)) ∧
    (archive_to_files_chunked env pages pre pattern strip comp maxBytes).1.countP
        isOpenFile = 0 := by
  have h := stream_loop_all_empty env strip pre (list_objects pages) 0 hempty
  have hs : stream_to_tar env pages pre strip comp
      = ([.listCall, .openTar, .closeTar], .ok 0) := by
    simp [stream_to_tar, hc, h]
  refine ⟨hs, ?_, ?_, ?_⟩
  · simp [archive_to_file, hs]
  · intro comp2
    simp [archive_to_file]
  · exact (c6_chunked_empty_listing env pages pre pattern strip comp maxBytes hc hempty).2

/-- Witness for C10 at the directory-marker listing. -/
theorem c10_stream_empty_still_writes_archive_witness :
    validComp none = true ∧
    (∀ o ∈ list_objects pagesMarker, archiveName true ['a', '/'] o.key = []) ∧
    (stream_to_tar envAllOk pagesMarker ['a', '/'] true none
        = ([.listCall, .openTar, .closeTar], .ok 0) ∧
     archive_to_file envAllOk pagesMarker ['a', '/'] ['o'] true none
        = ([.openFile ['o'], .listCall, .openTar, .closeTar, .closeFile ['o']], .ok 0) ∧
     (∀ comp2 : Option Str,
       (archive_to_file envAllOk pagesMarker ['a', '/'] ['o'] true comp2).1.head?
         = some (.openFile ['o'])) ∧
     (archive_to_files_chunked envAllOk pagesMarker ['a', '/'] patF true none 25).1.countP
        isOpenFile = 0) :=
  ⟨by decide, by decide,
    c10_stream_empty_still_writes_archive envAllOk pagesMarker ['a', '/'] ['o'] true
      none patF 25 (by decide) (by decide)⟩

/-! ### C4: compression validation versus I/O -/

/-- C4 counterexample: with an unrecognized compression mode,
`archive_to_file` creates (truncates) the output file before the
`ValueError` propagates — its trace contains an `openFile` event although the
call fails with the configuration error — contradicting the claim that no
output file is created first. -/
theorem c4_counterexample_file_created_before_error :
    (archive_to_file envAllOk pages11 [] ['o'] true compBad).1
        = [.openFile ['o'], .closeFile ['o']] ∧
    (archive_to_file envAllOk pages11 [] ['o'] true compBad).1.countP isOpenFile = 1 ∧
    (archive_to_file envAllOk pages11 [] ['o'] true compBad).2 = .error .configError := by
  refine ⟨rfl, by decide, rfl⟩

/-- C4 amended: with an unrecognized compression mode, all three operations
raise the configuration error before any network call; `stream_to_tar` and
`archive_to_files_chunked` perform no observable action at all, but
`archive_to_file` first creates/truncates (and then closes) the file at
`output_path` before the error propagates. -/
theorem c4_validation_before_io_amended (env : Str → GetResult)
    (pages : List (Option (List ObjRec))) (pre outPath : Str) (strip : Bool)
    (comp : Option Str) (pattern : Nat → Str) (maxBytes : Nat)
    (hc : validComp comp = false) :
    stream_to_tar env pages pre strip comp = ([], .error .configError) ∧
    archive_to_files_chunked env pages pre pattern strip comp maxBytes
        = ([], .error .configError) ∧
    archive_to_file env pages pre outPath strip comp
        = ([.openFile outPath, .closeFile outPath], .error .configError) ∧
    (archive_to_file env pages pre outPath strip comp).1.countP isNetwork = 0 := by
  have h1 : stream_to_tar env pages pre strip comp = ([], .error .configError) := by
    simp [stream_to_tar, hc]
  refine ⟨h1, ?_, ?_, ?_⟩
  · simp [archive_to_files_chunked, hc]
  · simp [archive_to_file, h1]
  · simp [archive_to_file, h1, isNetwork]

/-- Witness for the amended C4 at the concrete mode `"bad"`. -/
theorem c4_validation_before_io_amended_witness :
    validComp compBad = false ∧
    (stream_to_tar envAllOk pages11 [] true compBad = ([], .error .configError) ∧
     archive_to_files_chunked envAllOk pages11 [] patF true compBad 25
        = ([], .error .configError) ∧
     archive_to_file envAllOk pages11 [] ['o'] true compBad
        = ([.openFile ['o'], .closeFile ['o']], .error .configError) ∧
     (archive_to_file envAllOk pages11 [] ['o'] true compBad).1.countP isNetwork = 0) :=
  ⟨by decide,
    c4_validation_before_io_amended envAllOk pages11 [] ['o'] true compBad patF 25
      (by decide)⟩

/-! ### C2: chunk rotation policy and oversized singletons -/

lemma countP_finalize_openTar (st : ChunkSt) :
    (finalizeChunk st).1.countP isOpenTar = 0 := by
  by_cases h : st.tarOpen <;> simp [finalizeChunk, h, isOpenTar]

lemma countP_rotate_openTar (pattern : Nat → Str) (st : ChunkSt) :
    (rotate pattern st).1.countP isOpenTar = 1 := by
  simp only [rotate]
  rw [List.countP_append, countP_finalize_openTar]
  simp [isOpenTar]

/-- C2: in `archive_to_files_chunked`, processing an object with a non-empty
archive name opens a new chunk exactly when `needNewChunk` holds — that is,
when no chunk is open, or the declared sizes would exceed the budget and the
open chunk already holds a file; an open chunk with `files_in_chunk = 0` is
never rotated away; and therefore a listing holding one object whose size
exceeds the budget yields exactly one chunk with that object as sole member
(no refusal, one rotation). -/
theorem c2_rotation_policy (env : Str → GetResult) (maxBytes : Nat)
    (pattern : Nat → Str) (strip : Bool) (pre : Str) (o : ObjRec) (st : ChunkSt)
    (key : Str) (size : Nat)
    (hname : ¬ archiveName strip pre o.key = [])
    (hkey : endsWithSep key = false)
    (henv : env key = .ok)
    (hkname : ¬ archiveName strip pre key = [])
    (hbig : maxBytes < size) :
    (needNewChunk maxBytes st o.size = true →
        (chunkedStep env maxBytes pattern strip pre o st).2.1.chunk_num
            = st.chunk_num + 1 ∧
        (chunkedStep env maxBytes pattern strip pre o st).1.countP isOpenTar = 1) ∧
    (needNewChunk maxBytes st o.size = false →
        (chunkedStep env maxBytes pattern strip pre o st).2.1.chunk_num = st.chunk_num ∧
        (chunkedStep env maxBytes pattern strip pre o st).1.countP isOpenTar = 0 ∧
        (chunkedStep env maxBytes pattern strip pre o st).1.countP isCloseTar = 0) ∧
    (st.tarOpen = true → st.files_in_chunk = 0 →
        needNewChunk maxBytes st o.size = false) ∧
    (archive_to_files_chunked env [some [⟨key, size⟩]] pre pattern strip none maxBytes).2
        = .ok [(pattern 1, 1)] := by
  refine ⟨?_, ?_, ?_, ?_⟩
  · intro hn
    cases henv2 : env o.key with
    | ok =>
      rw [chunkedStep_ok_shape env maxBytes pattern strip pre o st hname henv2]
      refine ⟨by simp [hn, rotate], ?_⟩
      simp only [hn, if_true]
      rw [List.countP_append, countP_rotate_openTar]
      simp [isOpenTar]
    | failGet =>
      rw [chunkedStep_failGet_shape env maxBytes pattern strip pre o st hname henv2]
      refine ⟨by simp [hn, rotate], ?_⟩
      simp only [hn, if_true]
      rw [List.countP_append, countP_rotate_openTar]
      simp [isOpenTar]
    | failRead =>
      rw [chunkedStep_failRead_shape env maxBytes pattern strip pre o st hname henv2]
      refine ⟨by simp [hn, rotate], ?_⟩
      simp only [hn, if_true]
      rw [List.countP_append, countP_rotate_openTar]
      simp [isOpenTar]
  · intro hn
    cases henv2 : env o.key with
    | ok =>
      rw [chunkedStep_ok_shape env maxBytes pattern strip pre o st hname henv2]
      simp [hn, isOpenTar, isCloseTar]
    | failGet =>
      rw [chunkedStep_failGet_shape env maxBytes pattern strip pre o st hname henv2]
      simp [hn, isOpenTar, isCloseTar]
    | failRead =>
      rw [chunkedStep_failRead_shape env maxBytes pattern strip pre o st hname henv2]
      simp [hn, isOpenTar, isCloseTar]
  · intro h1 h2
    simp [needNewChunk, h1, h2]
  · have hlist : list_objects [some [⟨key, size⟩]] = [⟨key, size⟩] := by
      simp [list_objects, hkey]
    have hn : needNewChunk maxBytes initSt size = true := by
      simp [needNewChunk, initSt]
    have hstep := chunkedStep_ok_shape env maxBytes pattern strip pre ⟨key, size⟩
      initSt hkname henv
    simp only [hn, if_true] at hstep
    simp only [archive_to_files_chunked, hlist, eq_self_iff_true, if_true]
    rw [chunkedLoop_cons_none env maxBytes pattern strip pre ⟨key, size⟩ [] initSt _ _ hstep]
    simp [chunkedLoop, rotate, finalizeChunk, initSt, validComp]

/-- Witness for C2: an arbitrary pending object `"q"` of size 5 at the
initial state, and the oversized-singleton scenario of size 30 against a
budget of 10. -/
theorem c2_rotation_policy_witness :
    (¬ archiveName true [] ['q'] = []) ∧
    endsWithSep ['a'] = false ∧
    envAllOk ['a'] = .ok ∧
    (¬ archiveName true [] ['a'] = []) ∧
    10 < 30 ∧
    ((needNewChunk 10 initSt 5 = true →
        (chunkedStep envAllOk 10 patF true [] ⟨['q'], 5⟩ initSt).2.1.chunk_num
            = initSt.chunk_num + 1 ∧
        (chunkedStep envAllOk 10 patF true [] ⟨['q'], 5⟩ initSt).1.countP isOpenTar = 1) ∧
     (needNewChunk 10 initSt 5 = false →
        (chunkedStep envAllOk 10 patF true [] ⟨['q'], 5⟩ initSt).2.1.chunk_num
            = initSt.chunk_num ∧
        (chunkedStep envAllOk 10 patF true [] ⟨['q'], 5⟩ initSt).1.countP isOpenTar = 0 ∧
        (chunkedStep envAllOk 10 patF true [] ⟨['q'], 5⟩ initSt).1.countP isCloseTar = 0) ∧
     (initSt.tarOpen = true → initSt.files_in_chunk = 0 →
        needNewChunk 10 initSt 5 = false) ∧
     (archive_to_files_chunked envAllOk [some [⟨['a'], 30⟩]] [] patF true none 10).2
        = .ok [(patF 1, 1)]) :=
  ⟨by decide, by decide, by decide, by decide, by decide,
    c2_rotation_policy envAllOk 10 patF true [] ⟨['q'], 5⟩ initSt ['a'] 30
      (by decide) (by decide) (by decide) (by decide) (by decide)⟩

/-! ### C7: no finalized chunk is empty -/

lemma chunkedLoop_inv7 (env : Str → GetResult) (maxBytes : Nat) (pattern : Nat → Str)
    (strip : Bool) (pre : Str) :
    ∀ (objs : List ObjRec) (st : ChunkSt),
      (chunkedLoop env maxBytes pattern strip pre objs st).2.2 = none →
      (∀ c ∈ st.chunks, 0 < c.fileCount) →
      (st.tarOpen = true → 0 < st.files_in_chunk) →
      (∀ c ∈ (chunkedLoop env maxBytes pattern strip pre objs st).2.1.chunks,
          0 < c.fileCount) ∧
      ((chunkedLoop env maxBytes pattern strip pre objs st).2.1.tarOpen = true →
          0 < (chunkedLoop env maxBytes pattern strip pre objs st).2.1.files_in_chunk) := by
  intro objs
  induction objs with
  | nil => intro st _ h1 h2; exact ⟨h1, h2⟩
  | cons o rest ih =>
    intro st herr h1 h2
    by_cases hname : archiveName strip pre o.key = []
    · rw [chunkedLoop_cons_none env maxBytes pattern strip pre o rest st st []
        (chunkedStep_skip env maxBytes pattern strip pre o st hname)] at herr ⊢
      exact ih st (by simpa using herr) h1 h2
    · cases henv : env o.key with
      | failGet =>
        rw [chunkedLoop_cons_some env maxBytes pattern strip pre o rest st _ _ _
          (chunkedStep_failGet_shape env maxBytes pattern strip pre o st hname henv)] at herr
        simp at herr
      | failRead =>
        rw [chunkedLoop_cons_some env maxBytes pattern strip pre o rest st _ _ _
          (chunkedStep_failRead_shape env maxBytes pattern strip pre o st hname henv)] at herr
        simp at herr
      | ok =>
        rw [chunkedLoop_cons_none env maxBytes pattern strip pre o rest st _ _
          (chunkedStep_ok_shape env maxBytes pattern strip pre o st hname henv)] at herr ⊢
        refine ih _ (by simpa using herr) ?_ ?_
        · by_cases hn : needNewChunk maxBytes st o.size
          · simp only [hn, if_true, rotate]
            by_cases ht : st.tarOpen
            · simp only [needNewChunk, ht, Bool.not_true, Bool.false_or,
                Bool.and_eq_true, decide_eq_true_eq] at hn
              intro c hc
              simp only [finalizeChunk, ht, if_true, List.mem_append,
                List.mem_singleton] at hc
              rcases hc with hc | rfl
              · exact h1 c hc
              · exact hn.2
            · intro c hc
              simp only [finalizeChunk, ht, Bool.false_eq_true, if_false] at hc
              exact h1 c hc
          · simp only [hn, if_false]
            exact h1
        · by_cases hn : needNewChunk maxBytes st o.size
          · simp [hn, rotate]
          · simp [hn]

/-- C7: every `(filename, file_count)` pair in the finalized result of a
successful `archive_to_files_chunked` run has a positive file count — no
finalized chunk is empty. -/
theorem c7_no_empty_finalized_chunk (env : Str → GetResult)
    (pages : List (Option (List ObjRec))) (pre : Str) (pattern : Nat → Str)
    (strip : Bool) (comp : Option Str) (maxBytes : Nat) (l : List (Str × Nat))
    (h : (archive_to_files_chunked env pages pre pattern strip comp maxBytes).2 = .ok l) :
    ∀ x ∈ l, 0 < x.2 := by
  by_cases hc : validComp comp
  · simp only [archive_to_files_chunked, hc, if_true] at h
    cases herr : (chunkedLoop env maxBytes pattern strip pre (list_objects pages) initSt).2.2 with
    | some e => rw [herr] at h; simp at h
    | none =>
      rw [herr] at h
      simp only [Except.ok.injEq] at h
      obtain ⟨h1, h2⟩ := chunkedLoop_inv7 env maxBytes pattern strip pre
        (list_objects pages) initSt herr (by simp [initSt]) (by simp [initSt])
      have hF : ∀ c ∈ (finalizeChunk
          (chunkedLoop env maxBytes pattern strip pre (list_objects pages) initSt).2.1).2,
          0 < c.fileCount := by
        by_cases ht : (chunkedLoop env maxBytes pattern strip pre (list_objects pages)
            initSt).2.1.tarOpen
        · intro c hc2
          simp only [finalizeChunk, ht, if_true, List.mem_append,
            List.mem_singleton] at hc2
          rcases hc2 with hc2 | rfl
          · exact h1 c hc2
          · exact h2 ht
        · intro c hc2
          simp only [finalizeChunk, ht, Bool.false_eq_true, if_false] at hc2
          exact h1 c hc2
      intro x hx
      rw [← h] at hx
      simp only [List.mem_map] at hx
      obtain ⟨c, hc2, rfl⟩ := hx
      exact hF c hc2
  · simp only [archive_to_files_chunked, hc, if_false] at h
    simp at h

/-- Witness for C7 at a concrete successful run: one object of size 1,
budget 25, producing one chunk with one file. -/
theorem c7_no_empty_finalized_chunk_witness :
    (archive_to_files_chunked envAllOk pagesOne [] patF true none 25).2
        = .ok [(['f'], 1)] ∧
    ∀ x ∈ [((['f'] : Str), 1)], 0 < x.2 :=
  ⟨rfl, c7_no_empty_finalized_chunk envAllOk pagesOne [] patF true none 25
    [(['f'], 1)] rfl⟩

/-! ### C3: chunk-capacity invariant -/

lemma chunkedLoop_inv3 (env : Str → GetResult) (maxBytes : Nat) (pattern : Nat → Str)
    (strip : Bool) (pre : Str) :
    ∀ (objs : List ObjRec) (st : ChunkSt),
      (chunkedLoop env maxBytes pattern strip pre objs st).2.2 = none →
      (∀ c ∈ st.chunks, c.bytes ≤ maxBytes ∨ c.fileCount = 1) →
      (st.tarOpen = true → st.current_size ≤ maxBytes ∨ st.files_in_chunk ≤ 1) →
      (st.files_in_chunk = 0 → st.current_size = 0) →
      (∀ c ∈ (chunkedLoop env maxBytes pattern strip pre objs st).2.1.chunks,
          c.bytes ≤ maxBytes ∨ c.fileCount = 1) ∧
      ((chunkedLoop env maxBytes pattern strip pre objs st).2.1.tarOpen = true →
          (chunkedLoop env maxBytes pattern strip pre objs st).2.1.current_size ≤ maxBytes
            ∨ (chunkedLoop env maxBytes pattern strip pre objs st).2.1.files_in_chunk ≤ 1) ∧
      ((chunkedLoop env maxBytes pattern strip pre objs st).2.1.files_in_chunk = 0 →
          (chunkedLoop env maxBytes pattern strip pre objs st).2.1.current_size = 0) := by
  intro objs
  induction objs with
  | nil => intro st _ h1 h2 h3; exact ⟨h1, h2, h3⟩
  | cons o rest ih =>
    intro st herr h1 h2 h3
    by_cases hname : archiveName strip pre o.key = []
    · rw [chunkedLoop_cons_none env maxBytes pattern strip pre o rest st st []
        (chunkedStep_skip env maxBytes pattern strip pre o st hname)] at herr ⊢
      exact ih st (by simpa using herr) h1 h2 h3
    · cases henv : env o.key with
      | failGet =>
        rw [chunkedLoop_cons_some env maxBytes pattern strip pre o rest st _ _ _
          (chunkedStep_failGet_shape env maxBytes pattern strip pre o st hname henv)] at herr
        simp at herr
      | failRead =>
        rw [chunkedLoop_cons_some env maxBytes pattern strip pre o rest st _ _ _
          (chunkedStep_failRead_shape env maxBytes pattern strip pre o st hname henv)] at herr
        simp at herr
      | ok =>
        rw [chunkedLoop_cons_none env maxBytes pattern strip pre o rest st _ _
          (chunkedStep_ok_shape env maxBytes pattern strip pre o st hname henv)] at herr ⊢
        by_cases hn : needNewChunk maxBytes st o.size
        · refine ih _ (by simpa using herr) ?_ ?_ ?_
          · simp only [hn, if_true, rotate]
            by_cases ht : st.tarOpen
            · simp only [needNewChunk, ht, Bool.not_true, Bool.false_or,
                Bool.and_eq_true, decide_eq_true_eq] at hn
              intro c hc
              simp only [finalizeChunk, ht, if_true, List.mem_append,
                List.mem_singleton] at hc
              rcases hc with hc | rfl
              · exact h1 c hc
              · rcases h2 ht with hle | hle1
                · exact Or.inl hle
                · exact Or.inr (Nat.le_antisymm hle1 hn.2)
            · intro c hc
              simp only [finalizeChunk, ht, Bool.false_eq_true, if_false] at hc
              exact h1 c hc
          · simp [hn, rotate]
          · simp [hn, rotate]
        · have ht : st.tarOpen = true := by
            rcases Bool.eq_false_or_eq_true st.tarOpen with htt | htf
            · exact htt
            · exfalso
              apply hn
              simp [needNewChunk, htf]
          have hcap : st.current_size + o.size ≤ maxBytes ∨ st.files_in_chunk = 0 := by
            simp only [needNewChunk, ht, Bool.not_true, Bool.false_or,
              Bool.and_eq_true, decide_eq_true_eq] at hn
            rcases Nat.lt_or_ge maxBytes (st.current_size + o.size) with hlt | hge
            · rcases Nat.eq_zero_or_pos st.files_in_chunk with hz | hpos
              · exact Or.inr hz
              · exact absurd ⟨hlt, hpos⟩ hn
            · exact Or.inl hge
          refine ih _ (by simpa using herr) ?_ ?_ ?_
          · simpa [hn] using h1
          · simp only [hn, Bool.false_eq_true, if_false]
            intro _
            rcases hcap with hle | hz
            · exact Or.inl hle
            · exact Or.inr (by simp [hz])
          · simp [hn]

/-- C3 counterexample: two objects of size 30 against a budget of 10 produce
a successful run whose two finalized chunks both exceed the budget — so the
claim's "except possibly one" oversized chunk is violated (each is a
single-object chunk, but there are two of them). -/
theorem c3_capacity_counterexample :
    (archive_to_files_chunked envAllOk pages3030 [] patF true none 10).2
        = .ok [(['f'], 1), (['f'], 1)] ∧
    ((chunkRecords envAllOk pages3030 [] patF true 10).filter
        (fun c => decide (10 < c.bytes))).length = 2 ∧
    ¬ ((chunkRecords envAllOk pages3030 [] patF true 10).filter
        (fun c => decide (10 < c.bytes))).length ≤ 1 :=
  ⟨rfl, by decide, by decide⟩

/-- C3 amended: in a successful chunked run, every finalized chunk either has
its accumulated declared-size sum within `max_size_bytes` or holds exactly
one (oversized) object; there may be several such oversized singleton chunks,
not at most one. -/
theorem c3_capacity_amended (env : Str → GetResult)
    (pages : List (Option (List ObjRec))) (pre : Str) (pattern : Nat → Str)
    (strip : Bool) (comp : Option Str) (maxBytes : Nat)
    (hc : validComp comp = true)
    (hok : ∀ o ∈ list_objects pages, env o.key = .ok) :
    (archive_to_files_chunked env pages pre pattern strip comp maxBytes).2
        = .ok ((chunkRecords env pages pre pattern strip maxBytes).map
            fun c => (c.filename, c.fileCount)) ∧
    ∀ c ∈ chunkRecords env pages pre pattern strip maxBytes,
        c.bytes ≤ maxBytes ∨ c.fileCount = 1 := by
  have herr := (chunkedLoop_ok env maxBytes pattern strip pre (list_objects pages)
    initSt hok).1
  constructor
  · simp only [archive_to_files_chunked, hc, if_true, herr]
    rfl
  · obtain ⟨h1, h2, h3⟩ := chunkedLoop_inv3 env maxBytes pattern strip pre
      (list_objects pages) initSt herr (by simp [initSt]) (by simp [initSt])
      (by simp [initSt])
    intro c hc2
    simp only [chunkRecords] at hc2
    by_cases ht : (chunkedLoop env maxBytes pattern strip pre (list_objects pages)
        initSt).2.1.tarOpen
    · simp only [finalizeChunk, ht, if_true, List.mem_append,
        List.mem_singleton] at hc2
      rcases hc2 with hc2 | rfl
      · exact h1 c hc2
      · rcases Nat.eq_zero_or_pos (chunkedLoop env maxBytes pattern strip pre
            (list_objects pages) initSt).2.1.files_in_chunk with hz | hpos
        · rw [h3 hz]
          exact Or.inl (Nat.zero_le _)
        · rcases h2 ht with hle | hle1
          · exact Or.inl hle
          · exact Or.inr (Nat.le_antisymm hle1 hpos)
    · simp only [finalizeChunk, ht, Bool.false_eq_true, if_false] at hc2
      exact h1 c hc2

/-- Witness for the amended C3 at the two-oversized-objects run. -/
theorem c3_capacity_amended_witness :
    validComp none = true ∧
    (∀ o ∈ list_objects pages3030, envAllOk o.key = .ok) ∧
    ((archive_to_files_chunked envAllOk pages3030 [] patF true none 10).2
        = .ok ((chunkRecords envAllOk pages3030 [] patF true 10).map
            fun c => (c.filename, c.fileCount)) ∧
     ∀ c ∈ chunkRecords envAllOk pages3030 [] patF true 10,
        c.bytes ≤ 10 ∨ c.fileCount = 1) :=
  ⟨by decide, by decide,
    c3_capacity_amended envAllOk pages3030 [] patF true none 10 (by decide) (by decide)⟩

/-! ### C5: a zero byte budget is not single-chunk mode -/

lemma finalize_chunks_length (st : ChunkSt) :
    (finalizeChunk st).2.length = st.chunks.length + st.tarOpen.toNat := by
  by_cases h : st.tarOpen <;> simp [finalizeChunk, h]

lemma mem_finalize_chunks (st : ChunkSt) (c : ChunkRec)
    (hc : c ∈ (finalizeChunk st).2) :
    c ∈ st.chunks ∨ (st.tarOpen = true ∧ c.fileCount = st.files_in_chunk) := by
  by_cases h : st.tarOpen
  · simp only [finalizeChunk, h, if_true, List.mem_append, List.mem_singleton] at hc
    rcases hc with hc | rfl
    · exact Or.inl hc
    · exact Or.inr ⟨h, rfl⟩
  · simp only [finalizeChunk, h, Bool.false_eq_true, if_false] at hc
    exact Or.inl hc

lemma chunkedLoop_budget0 (env : Str → GetResult) (pattern : Nat → Str)
    (strip : Bool) (pre : Str) :
    ∀ (objs : List ObjRec) (st : ChunkSt),
      (∀ o ∈ objs, env o.key = .ok ∧ 0 < o.size) →
      (st.tarOpen = true → st.files_in_chunk = 1 ∧ 1 ≤ st.current_size) →
      (chunkedLoop env 0 pattern strip pre objs st).2.2 = none ∧
      ((chunkedLoop env 0 pattern strip pre objs st).2.1.chunks.length
          + ((chunkedLoop env 0 pattern strip pre objs st).2.1.tarOpen).toNat
        = st.chunks.length + st.tarOpen.toNat + (filteredNames strip pre objs).length) ∧
      ((chunkedLoop env 0 pattern strip pre objs st).2.1.tarOpen = true →
          (chunkedLoop env 0 pattern strip pre objs st).2.1.files_in_chunk = 1 ∧
          1 ≤ (chunkedLoop env 0 pattern strip pre objs st).2.1.current_size) ∧
      (∀ c ∈ (chunkedLoop env 0 pattern strip pre objs st).2.1.chunks,
          c ∈ st.chunks ∨ c.fileCount = 1) := by
  intro objs
  induction objs with
  | nil =>
    intro st _ hinv
    exact ⟨rfl, by simp [chunkedLoop, filteredNames], hinv, fun c hc => Or.inl hc⟩
  | cons o rest ih =>
    intro st h hinv
    have ho : env o.key = .ok := (h o (by simp)).1
    have hpos : 0 < o.size := (h o (by simp)).2
    have hr : ∀ x ∈ rest, env x.key = .ok ∧ 0 < x.size := fun x hx => h x (by simp [hx])
    by_cases hname : archiveName strip pre o.key = []
    · rw [filteredNames_cons_skip _ _ _ _ hname,
        chunkedLoop_cons_none env 0 pattern strip pre o rest st st []
          (chunkedStep_skip env 0 pattern strip pre o st hname)]
      exact ih st hr hinv
    · have hn : needNewChunk 0 st o.size = true := by
        rcases Bool.eq_false_or_eq_true st.tarOpen with htt | htf
        · have h1 : 0 < st.current_size + o.size := Nat.lt_of_lt_of_le hpos (by omega)
          have h2 : 0 < st.files_in_chunk := by
            rw [(hinv htt).1]
            omega
          simp [needNewChunk, htt, h1, h2]
        · simp [needNewChunk, htf]
      have hstep := chunkedStep_ok_shape env 0 pattern strip pre o st hname ho
      simp only [hn, if_true] at hstep
      rw [filteredNames_cons_keep _ _ _ _ hname,
        chunkedLoop_cons_none env 0 pattern strip pre o rest st _ _ hstep]
      have hfin : st.tarOpen = true → st.files_in_chunk = 1 := fun ht => (hinv ht).1
      obtain ⟨i1, i2, i3, i4⟩ := ih
        { (rotate pattern st).2 with
            current_size := (rotate pattern st).2.current_size + o.size,
            files_in_chunk := (rotate pattern st).2.files_in_chunk + 1 } hr
        (by
          intro _
          simp only [rotate]
          refine ⟨by simp, ?_⟩
          simpa using hpos)
      refine ⟨by simpa using i1, ?_, by simpa using i3, ?_⟩
      · have hlen := i2
        rw [hlen]
        simp only [rotate]
        rw [finalize_chunks_length]
        simp [List.length_cons]
        omega
      · intro c hc
        rcases i4 c hc with hmem | h1c
        · simp only [rotate] at hmem
          rcases mem_finalize_chunks st c hmem with hmem2 | ⟨ht, hcnt⟩
          · exact Or.inl hmem2
          · exact Or.inr (hcnt.trans (hfin ht))
        · exact Or.inr h1c

/-- C5 counterexample: with `max_size_bytes = 0` (from `max_size_gb = 0`),
a listing of two 1-byte objects yields two chunks of one file each — not a
single chunk containing all entries — so budget 0 is not single-chunk mode. -/
theorem c5_budget0_counterexample :
    (archive_to_files_chunked envAllOk pages11 [] patF true none 0).2
        = .ok [(['f'], 1), (['f'], 1)] ∧
    resultChunkCount
        (archive_to_files_chunked envAllOk pages11 [] patF true none 0).2 ≠ 1 :=
  ⟨rfl, by decide⟩

/-- C5 amended: with a chunk budget of 0, a successful run over a listing of
positive-size objects produces one chunk per filtered entry — each produced
chunk holds exactly one file — rather than a single chunk holding them all;
budget 0 behaves as "rotate before every object", not as unbounded. -/
theorem c5_budget0_one_chunk_per_object_amended (env : Str → GetResult)
    (pages : List (Option (List ObjRec))) (pre : Str) (pattern : Nat → Str)
    (strip : Bool) (comp : Option Str)
    (hc : validComp comp = true)
    (hok : ∀ o ∈ list_objects pages, env o.key = .ok)
    (hpos : ∀ o ∈ list_objects pages, 0 < o.size) :
    ∃ l, (archive_to_files_chunked env pages pre pattern strip comp 0).2 = .ok l ∧
      l.length = (filteredNames strip pre (list_objects pages)).length ∧
      ∀ x ∈ l, x.2 = 1 := by
  obtain ⟨herr, hlen, hinv, hmem⟩ := chunkedLoop_budget0 env pattern strip pre
    (list_objects pages) initSt (fun o ho => ⟨hok o ho, hpos o ho⟩)
    (by simp [initSt])
  have hres : (archive_to_files_chunked env pages pre pattern strip comp 0).2
      = .ok ((finalizeChunk
          (chunkedLoop env 0 pattern strip pre (list_objects pages) initSt).2.1).2.map
            fun c => (c.filename, c.fileCount)) := by
    simp only [archive_to_files_chunked, hc, if_true, herr]
  refine ⟨_, hres, ?_, ?_⟩
  · rw [List.length_map, finalize_chunks_length]
    simpa [initSt] using hlen
  · intro x hx
    simp only [List.mem_map] at hx
    obtain ⟨c, hc2, rfl⟩ := hx
    rcases mem_finalize_chunks _ c hc2 with hmem2 | ⟨ht, hcnt⟩
    · rcases hmem c hmem2 with h0 | h1c
      · simp [initSt] at h0
      · exact h1c
    · exact hcnt.trans (hinv ht).1

/-- Witness for the amended C5: two 1-byte objects, budget 0. -/
theorem c5_budget0_one_chunk_per_object_amended_witness :
    validComp none = true ∧
    (∀ o ∈ list_objects pages11, envAllOk o.key = .ok) ∧
    (∀ o ∈ list_objects pages11, 0 < o.size) ∧
    (∃ l, (archive_to_files_chunked envAllOk pages11 [] patF true none 0).2 = .ok l ∧
      l.length = (filteredNames true [] (list_objects pages11)).length ∧
      ∀ x ∈ l, x.2 = 1) :=
  ⟨by decide, by decide, by decide,
    c5_budget0_one_chunk_per_object_amended envAllOk pages11 [] patF true none
      (by decide) (by decide) (by decide)⟩

/-! ### C8: every handle is released on every exit path -/

lemma stream_loop_balance (env : Str → GetResult) (strip : Bool) (pre : Str) :
    ∀ (objs : List ObjRec) (n : Nat),
      ((stream_loop env strip pre objs n).1.countP isGetObject
          = (stream_loop env strip pre objs n).1.countP isCloseBody) ∧
      (∀ e ∈ (stream_loop env strip pre objs n).1,
          isOpenTar e = false ∧ isCloseTar e = false ∧
          isOpenFile e = false ∧ isCloseFile e = false) := by
  intro objs
  induction objs with
  | nil => intro n; simp [stream_loop]
  | cons o rest ih =>
    intro n
    by_cases hname : archiveName strip pre o.key = []
    · simpa [stream_loop, hname] using ih n
    · cases henv : env o.key with
      | failGet =>
        simp [stream_loop, hname, henv, isGetObject, isCloseBody, isOpenTar,
          isCloseTar, isOpenFile, isCloseFile]
      | failRead =>
        simp [stream_loop, hname, henv, isGetObject, isCloseBody, isOpenTar,
          isCloseTar, isOpenFile, isCloseFile]
      | ok =>
        obtain ⟨ih1, ih2⟩ := ih (n + 1)
        refine ⟨?_, ?_⟩
        · simp [stream_loop, hname, henv, List.countP_cons, isGetObject,
            isCloseBody, ih1]
        · intro e he
          have he2 : e = .getObject o.key ∨ e = .addEntry (archiveName strip pre o.key)
              ∨ e = .closeBody o.key ∨ e ∈ (stream_loop env strip pre rest (n + 1)).1 := by
            simpa [stream_loop, hname, henv] using he
          rcases he2 with rfl | rfl | rfl | he2
          · simp [isOpenTar, isCloseTar, isOpenFile, isCloseFile]
          · simp [isOpenTar, isCloseTar, isOpenFile, isCloseFile]
          · simp [isOpenTar, isCloseTar, isOpenFile, isCloseFile]
          · exact ih2 e he2

lemma rotate_balance (pattern : Nat → Str) (st : ChunkSt) :
    ((rotate pattern st).1.countP isOpenTar + st.tarOpen.toNat
        = (rotate pattern st).1.countP isCloseTar + 1) ∧
    ((rotate pattern st).1.countP isOpenFile + st.tarOpen.toNat
        = (rotate pattern st).1.countP isCloseFile + 1) ∧
    ((rotate pattern st).1.countP isGetObject
        = (rotate pattern st).1.countP isCloseBody) := by
  by_cases h : st.tarOpen <;>
    simp [rotate, finalizeChunk, h, List.countP_cons, isOpenTar, isCloseTar,
      isOpenFile, isCloseFile, isGetObject, isCloseBody]

lemma rotate_tarOpen (pattern : Nat → Str) (st : ChunkSt) :
    (rotate pattern st).2.tarOpen = true := rfl

lemma chunkedLoop_balance (env : Str → GetResult) (maxBytes : Nat)
    (pattern : Nat → Str) (strip : Bool) (pre : Str) :
    ∀ (objs : List ObjRec) (st : ChunkSt),
      ((chunkedLoop env maxBytes pattern strip pre objs st).1.countP isGetObject
          = (chunkedLoop env maxBytes pattern strip pre objs st).1.countP isCloseBody) ∧
      ((chunkedLoop env maxBytes pattern strip pre objs st).1.countP isOpenTar
            + st.tarOpen.toNat
          = (chunkedLoop env maxBytes pattern strip pre objs st).1.countP isCloseTar
            + (chunkedLoop env maxBytes pattern strip pre objs st).2.1.tarOpen.toNat) ∧
      ((chunkedLoop env maxBytes pattern strip pre objs st).1.countP isOpenFile
            + st.tarOpen.toNat
          = (chunkedLoop env maxBytes pattern strip pre objs st).1.countP isCloseFile
            + (chunkedLoop env maxBytes pattern strip pre objs st).2.1.tarOpen.toNat) := by
  intro objs
  induction objs with
  | nil => intro st; simp [chunkedLoop]
  | cons o rest ih =>
    intro st
    by_cases hname : archiveName strip pre o.key = []
    · rw [chunkedLoop_cons_none env maxBytes pattern strip pre o rest st st []
        (chunkedStep_skip env maxBytes pattern strip pre o st hname)]
      simpa using ih st
    · by_cases hn : needNewChunk maxBytes st o.size
      · obtain ⟨rb1, rb2, rb3⟩ := rotate_balance pattern st
        cases henv : env o.key with
        | failGet =>
          have hs := chunkedStep_failGet_shape env maxBytes pattern strip pre o st hname henv
          simp only [hn, if_true] at hs
          rw [chunkedLoop_cons_some env maxBytes pattern strip pre o rest st _ _ _ hs]
          have hro : ((rotate pattern st).2.tarOpen).toNat = 1 := rfl
          simp only [List.countP_append, List.countP_cons, List.countP_nil,
            isGetObject, isCloseBody, isOpenTar, isCloseTar, isOpenFile,
            isCloseFile, hro]
          refine ⟨by omega, by omega, by omega⟩
        | failRead =>
          have hs := chunkedStep_failRead_shape env maxBytes pattern strip pre o st hname henv
          simp only [hn, if_true] at hs
          rw [chunkedLoop_cons_some env maxBytes pattern strip pre o rest st _ _ _ hs]
          have hro : ((rotate pattern st).2.tarOpen).toNat = 1 := rfl
          simp only [List.countP_append, List.countP_cons, List.countP_nil,
            isGetObject, isCloseBody, isOpenTar, isCloseTar, isOpenFile,
            isCloseFile, hro]
          refine ⟨by omega, by omega, by omega⟩
        | ok =>
          have hs := chunkedStep_ok_shape env maxBytes pattern strip pre o st hname henv
          simp only [hn, if_true] at hs
          rw [chunkedLoop_cons_none env maxBytes pattern strip pre o rest st _ _ hs]
          obtain ⟨ih1, ih2, ih3⟩ := ih
            { (rotate pattern st).2 with
                current_size := (rotate pattern st).2.current_size + o.size,
                files_in_chunk := (rotate pattern st).2.files_in_chunk + 1 }
          have hro : (({ (rotate pattern st).2 with
              current_size := (rotate pattern st).2.current_size + o.size,
              files_in_chunk := (rotate pattern st).2.files_in_chunk + 1 }
                : ChunkSt).tarOpen).toNat = 1 := rfl
          rw [hro] at ih2 ih3
          simp only [List.countP_append, List.countP_cons, List.countP_nil,
            isGetObject, isCloseBody, isOpenTar, isCloseTar, isOpenFile,
            isCloseFile] at ih1 ih2 ih3 ⊢
          refine ⟨by omega, by omega, by omega⟩
      · cases henv : env o.key with
        | failGet =>
          have hs := chunkedStep_failGet_shape env maxBytes pattern strip pre o st hname henv
          simp only [hn, if_false, Bool.false_eq_true] at hs
          rw [chunkedLoop_cons_some env maxBytes pattern strip pre o rest st _ _ _ hs]
          simp [List.countP_cons, isGetObject, isCloseBody, isOpenTar, isCloseTar,
            isOpenFile, isCloseFile]
        | failRead =>
          have hs := chunkedStep_failRead_shape env maxBytes pattern strip pre o st hname henv
          simp only [hn, if_false, Bool.false_eq_true] at hs
          rw [chunkedLoop_cons_some env maxBytes pattern strip pre o rest st _ _ _ hs]
          simp [List.countP_cons, isGetObject, isCloseBody, isOpenTar, isCloseTar,
            isOpenFile, isCloseFile]
        | ok =>
          have hs := chunkedStep_ok_shape env maxBytes pattern strip pre o st hname henv
          simp only [hn, if_false, Bool.false_eq_true] at hs
          rw [chunkedLoop_cons_none env maxBytes pattern strip pre o rest st _ _ hs]
          obtain ⟨ih1, ih2, ih3⟩ := ih
            { st with
                current_size := st.current_size + o.size,
                files_in_chunk := st.files_in_chunk + 1 }
          have hro : (({ st with
              current_size := st.current_size + o.size,
              files_in_chunk := st.files_in_chunk + 1 } : ChunkSt).tarOpen).toNat
              = st.tarOpen.toNat := rfl
          rw [hro] at ih2 ih3
          simp only [List.countP_append, List.countP_cons, List.countP_nil,
            isGetObject, isCloseBody, isOpenTar, isCloseTar, isOpenFile,
            isCloseFile] at ih1 ih2 ih3 ⊢
          refine ⟨by omega, by omega, by omega⟩

/-- C8: for every run of `stream_to_tar` and `archive_to_files_chunked` —
normal completion, a failing `get_object`, or a body-read failure mid-object
— the trace balances: every acquired body handle is closed, every opened tar
writer is closed, and every opened output file is closed before the call
returns or the error propagates. -/
theorem c8_all_handles_released (env : Str → GetResult)
    (pages : List (Option (List ObjRec))) (pre : Str) (strip : Bool)
    (comp : Option Str) (pattern : Nat → Str) (maxBytes : Nat) :
    ((stream_to_tar env pages pre strip comp).1.countP isGetObject
        = (stream_to_tar env pages pre strip comp).1.countP isCloseBody) ∧
    ((stream_to_tar env pages pre strip comp).1.countP isOpenTar
        = (stream_to_tar env pages pre strip comp).1.countP isCloseTar) ∧
    ((stream_to_tar env pages pre strip comp).1.countP isOpenFile
        = (stream_to_tar env pages pre strip comp).1.countP isCloseFile) ∧
    ((archive_to_files_chunked env pages pre pattern strip comp maxBytes).1.countP
          isGetObject
        = (archive_to_files_chunked env pages pre pattern strip comp maxBytes).1.countP
          isCloseBody) ∧
    ((archive_to_files_chunked env pages pre pattern strip comp maxBytes).1.countP
          isOpenTar
        = (archive_to_files_chunked env pages pre pattern strip comp maxBytes).1.countP
          isCloseTar) ∧
    ((archive_to_files_chunked env pages pre pattern strip comp maxBytes).1.countP
          isOpenFile
        = (archive_to_files_chunked env pages pre pattern strip comp maxBytes).1.countP
          isCloseFile) := by
  by_cases hc : validComp comp
  · obtain ⟨sb1, sb2⟩ := stream_loop_balance env strip pre (list_objects pages) 0
    refine ⟨?_, ?_, ?_, ?_, ?_, ?_⟩
    · simp only [stream_to_tar, hc, if_true]
      simp [List.countP_cons, List.countP_append, isGetObject, isCloseBody, sb1]
    · simp only [stream_to_tar, hc, if_true]
      have h1 : (stream_loop env strip pre (list_objects pages) 0).1.countP isOpenTar = 0 :=
        List.countP_eq_zero.mpr fun e he => by simp [(sb2 e he).1]
      have h2 : (stream_loop env strip pre (list_objects pages) 0).1.countP isCloseTar = 0 :=
        List.countP_eq_zero.mpr fun e he => by simp [(sb2 e he).2.1]
      simp [List.countP_cons, List.countP_append, isOpenTar, isCloseTar, h1, h2]
    · simp only [stream_to_tar, hc, if_true]
      have h1 : (stream_loop env strip pre (list_objects pages) 0).1.countP isOpenFile = 0 :=
        List.countP_eq_zero.mpr fun e he => by simp [(sb2 e he).2.2.1]
      have h2 : (stream_loop env strip pre (list_objects pages) 0).1.countP isCloseFile = 0 :=
        List.countP_eq_zero.mpr fun e he => by simp [(sb2 e he).2.2.2]
      simp [List.countP_cons, List.countP_append, isOpenFile, isCloseFile, h1, h2]
    · obtain ⟨cb1, cb2, cb3⟩ := chunkedLoop_balance env maxBytes pattern strip pre
        (list_objects pages) initSt
      simp only [archive_to_files_chunked, hc, if_true]
      by_cases ht : (chunkedLoop env maxBytes pattern strip pre (list_objects pages)
          initSt).2.1.tarOpen <;>
        simp [finalizeChunk, ht, List.countP_cons, List.countP_append,
          isGetObject, isCloseBody, cb1]
    · obtain ⟨cb1, cb2, cb3⟩ := chunkedLoop_balance env maxBytes pattern strip pre
        (list_objects pages) initSt
      have h0 : initSt.tarOpen.toNat = 0 := rfl
      rw [h0] at cb2
      simp only [archive_to_files_chunked, hc, if_true]
      by_cases ht : (chunkedLoop env maxBytes pattern strip pre (list_objects pages)
          initSt).2.1.tarOpen
      · rw [ht] at cb2
        simp only [Bool.toNat_true] at cb2
        simp [finalizeChunk, ht, List.countP_cons, List.countP_append,
          isOpenTar, isCloseTar]
        omega
      · rw [Bool.not_eq_true] at ht
        rw [ht] at cb2
        simp only [Bool.toNat_false] at cb2
        simp [finalizeChunk, ht, List.countP_cons, List.countP_append,
          isOpenTar, isCloseTar]
        omega
    · obtain ⟨cb1, cb2, cb3⟩ := chunkedLoop_balance env maxBytes pattern strip pre
        (list_objects pages) initSt
      have h0 : initSt.tarOpen.toNat = 0 := rfl
      rw [h0] at cb3
      simp only [archive_to_files_chunked, hc, if_true]
      by_cases ht : (chunkedLoop env maxBytes pattern strip pre (list_objects pages)
          initSt).2.1.tarOpen
      · rw [ht] at cb3
        simp only [Bool.toNat_true] at cb3
        simp [finalizeChunk, ht, List.countP_cons, List.countP_append,
          isOpenFile, isCloseFile]
        omega
      · rw [Bool.not_eq_true] at ht
        rw [ht] at cb3
        simp only [Bool.toNat_false] at cb3
        simp [finalizeChunk, ht, List.countP_cons, List.countP_append,
          isOpenFile, isCloseFile]
        omega
  · simp [stream_to_tar, archive_to_files_chunked, hc]

end S32Tar
